import Mathlib

/-!
Shallow embedding of `src/identification/open/evaluation.py` (VeinVision),
the open-set identification evaluation protocol: the FAR/FRR/DIR threshold
sweep of `test`, the CSV export `save_threshold_metrics`, the scatter
subsample of `plot_watchlist_roc_curve`, and the checkpoint-loading control
flow of `test`.  Float arrays are modelled as lists of rationals; the NaN
produced by `np.mean` on an empty array is modelled as `none`.
-/

namespace VeinVision

/-- A scored evaluation sample produced by the scoring loop of `test`: the
max-softmax confidence of the probe and its ground-truth integer label,
where `-1` is the reserved unknown-subject sentinel. -/
abbrev Sample : Type := ℚ × ℤ

/-- Model of `np.mean` applied to a boolean mask: the number of `true`
entries divided by the array length.  `np.mean` of an empty array is NaN
(with a runtime warning); `none` represents that NaN. -/
def npMean (mask : List Bool) : Option ℚ :=
  if mask.length = 0 then none
  else some ((mask.countP id : ℚ) / (mask.length : ℚ))

/-- The elementwise mask `(probabilities >= threshold) & (labels == -1)`
from the sweep loop of `test`. -/
def farMask (samples : List Sample) (t : ℚ) : List Bool :=
  samples.map (fun s => decide (s.1 ≥ t) && decide (s.2 = -1))

/-- `far = np.mean((probabilities >= threshold) & (labels == -1))`. -/
def far (samples : List Sample) (t : ℚ) : Option ℚ :=
  npMean (farMask samples t)

/-- The elementwise mask `(probabilities < threshold) & (labels != -1)`
from the sweep loop of `test`. -/
def frrMask (samples : List Sample) (t : ℚ) : List Bool :=
  samples.map (fun s => decide (s.1 < t) && decide (s.2 ≠ -1))

/-- `frr = np.mean((probabilities < threshold) & (labels != -1))`. -/
def frr (samples : List Sample) (t : ℚ) : Option ℚ :=
  npMean (frrMask samples t)

/-- `dir_rate = 1 - frr`; a NaN `frr` propagates through the subtraction. -/
def dir_rate (samples : List Sample) (t : ℚ) : Option ℚ :=
  (frr samples t).map (fun f => 1 - f)

/-- `thresholds = np.linspace(0, 1, 1000)`: the 1000-point uniform grid over
`[0, 1]` inclusive, point `i` being `i / 999` (the float grid is exact at the
endpoints; interior points are modelled exactly as rationals). -/
def thresholds : List ℚ :=
  (List.range 1000).map (fun (i : ℕ) => (i : ℚ) / 999)

/-- `far_list`: one `far` value appended per threshold of the sweep loop,
in grid order. -/
def far_list (samples : List Sample) : List (Option ℚ) :=
  thresholds.map (far samples)

/-- `frr_list`: one `frr` value appended per threshold of the sweep loop,
in grid order. -/
def frr_list (samples : List Sample) : List (Option ℚ) :=
  thresholds.map (frr samples)

/-- `dir_list`: one `dir_rate` value appended per threshold of the sweep
loop, in grid order. -/
def dir_list (samples : List Sample) : List (Option ℚ) :=
  thresholds.map (dir_rate samples)

/-- The synthetic end-to-end sample set of the spec: 4 known samples with
confidences `[0.9, 0.8, 0.3, 0.6]` and labels `[0, 1, 0, 1]`, then 4
unknown samples with confidences `[0.95, 0.4, 0.7, 0.2]` and label `-1`. -/
def exampleSamples : List Sample :=
  [(9/10, 0), (8/10, 1), (3/10, 0), (6/10, 1),
   (95/100, -1), (4/10, -1), (7/10, -1), (2/10, -1)]

/-- `subset_indices = np.linspace(0, num_points - 1, num=20, dtype=int)`
from `plot_watchlist_roc_curve`: 20 evenly spaced positions over
`[0, num_points - 1]` truncated to integers, position `i` being the floor
of `i * (num_points - 1) / 19`; the float endpoints of `linspace` are
exact, so the first and last positions carry no rounding. -/
def subset_indices (num_points : ℕ) : List ℕ :=
  (List.range 20).map (fun i => i * (num_points - 1) / 19)

/-- `selected_thresholds = np.arange(0.1, 1.1, 0.1)` from
`save_threshold_metrics`: the ten decade targets `0.1, 0.2, ..., 1.0`,
modelled exactly as rationals. -/
def selected_thresholds : List ℚ :=
  (List.range 10).map (fun (k : ℕ) => ((k : ℚ) + 1) / 10)

/-- Recursive core of `np.argmin` over `np.abs(xs - target)`: the index
and value of the first entry minimizing the absolute difference. -/
def argminAbsAux (target : ℚ) : List ℚ → Option (ℕ × ℚ)
  | [] => none
  | x :: xs =>
    match argminAbsAux target xs with
    | none => some (0, |x - target|)
    | some (j, v) =>
      if |x - target| ≤ v then some (0, |x - target|) else some (j + 1, v)

/-- `(np.abs(thresholds - selected_threshold)).argmin()`: the first index
of the grid value nearest to the target; `0` on an empty grid, where
numpy would raise instead. -/
def argminAbs (xs : List ℚ) (target : ℚ) : ℕ :=
  ((argminAbsAux target xs).map Prod.fst).getD 0

/-- The data rows written by `save_threshold_metrics`: for each decade
target in ascending order, the row `(thresholds[index], far_list[index],
frr_list[index], dir_list[index])` at the nearest-index lookup. -/
def save_threshold_metrics (ths far_l frr_l dir_l : List ℚ) :
    List (ℚ × ℚ × ℚ × ℚ) :=
  selected_thresholds.map (fun st =>
    (ths.getD (argminAbs ths st) 0, far_l.getD (argminAbs ths st) 0,
      frr_l.getD (argminAbs ths st) 0, dir_l.getD (argminAbs ths st) 0))

/-- Number of CSV lines written by `save_threshold_metrics`: one header
row (`Threshold,FAR,FRR,DIR`) plus one row per selected threshold. -/
def csvLineCount (ths far_l frr_l dir_l : List ℚ) : ℕ :=
  1 + (save_threshold_metrics ths far_l frr_l dir_l).length

/-- Observable steps of `test`, in program order: loading the checkpoint,
scoring a batch, and writing each of the three output artifacts. -/
inductive Event : Type
  | loadCheckpoint
  | scoreBatch
  | writeFarFrrPlot
  | writeThresholdCsv
  | writeRocPlot
deriving DecidableEq

/-- The failure raised by `torch.load` when the weights file is absent. -/
inductive EvalError : Type
  | checkpointNotFound
deriving DecidableEq

/-- Control-flow model of `test`: `model.load_state_dict(torch.load(...))`
is the first statement and raises when the checkpoint file is absent;
only on success do the scoring loop and then the three artifact writes
(FAR-vs-FRR plot, metrics CSV, watchlist ROC plot) run, in that order.
Returns the performed events and the outcome. -/
def test (checkpointPresent : Bool) (numBatches : ℕ) :
    List Event × Except EvalError Unit :=
  if checkpointPresent then
    (Event.loadCheckpoint :: (List.replicate numBatches Event.scoreBatch ++
      [Event.writeFarFrrPlot, Event.writeThresholdCsv, Event.writeRocPlot]),
      Except.ok ())
  else ([], Except.error EvalError.checkpointNotFound)

/-! Helper lemmas about `npMean` and the two masks. -/

theorem countP_id_map {α : Type} (f : α → Bool) (l : List α) :
    (l.map f).countP id = l.countP f := by
  rw [List.countP_map]
  rfl

theorem npMean_of_ne_nil {mask : List Bool} (h : mask.length ≠ 0) :
    npMean mask = some ((mask.countP id : ℚ) / (mask.length : ℚ)) := by
  simp [npMean, h]

theorem npMean_some_inv {mask : List Bool} {a : ℚ} (h : npMean mask = some a) :
    mask.length ≠ 0 ∧ a = (mask.countP id : ℚ) / (mask.length : ℚ) := by
  by_cases h0 : mask.length = 0 <;> simp [npMean, h0] at h
  exact ⟨h0, h.symm⟩

theorem far_eq_of_ne_nil (samples : List Sample) (t : ℚ) (h : samples ≠ []) :
    far samples t =
      some ((samples.countP (fun s => decide (s.1 ≥ t) && decide (s.2 = -1)) : ℚ) /
        (samples.length : ℚ)) := by
  have hlen : (farMask samples t).length = samples.length := by
    simp [farMask]
  rw [far, npMean_of_ne_nil, hlen, farMask, countP_id_map]
  rw [hlen]
  simpa using h

theorem frr_eq_of_ne_nil (samples : List Sample) (t : ℚ) (h : samples ≠ []) :
    frr samples t =
      some ((samples.countP (fun s => decide (s.1 < t) && decide (s.2 ≠ -1)) : ℚ) /
        (samples.length : ℚ)) := by
  have hlen : (frrMask samples t).length = samples.length := by
    simp [frrMask]
  rw [frr, npMean_of_ne_nil, hlen, frrMask, countP_id_map]
  rw [hlen]
  simpa using h

theorem far_some_inv {samples : List Sample} {t : ℚ} {a : ℚ}
    (h : far samples t = some a) :
    samples ≠ [] ∧
      a = (samples.countP (fun s => decide (s.1 ≥ t) && decide (s.2 = -1)) : ℚ) /
        (samples.length : ℚ) := by
  obtain ⟨hne, ha⟩ := npMean_some_inv h
  have hlen : (farMask samples t).length = samples.length := by simp [farMask]
  refine ⟨fun hnil => hne (by simp [hnil, farMask]), ?_⟩
  rw [ha, hlen, farMask, countP_id_map]

theorem frr_some_inv {samples : List Sample} {t : ℚ} {b : ℚ}
    (h : frr samples t = some b) :
    samples ≠ [] ∧
      b = (samples.countP (fun s => decide (s.1 < t) && decide (s.2 ≠ -1)) : ℚ) /
        (samples.length : ℚ) := by
  obtain ⟨hne, hb⟩ := npMean_some_inv h
  have hlen : (frrMask samples t).length = samples.length := by simp [frrMask]
  refine ⟨fun hnil => hne (by simp [hnil, frrMask]), ?_⟩
  rw [hb, hlen, frrMask, countP_id_map]

/-- C1: FAR at a threshold is the fraction, over the entire evaluation set,
of samples with confidence at least the threshold and label `-1`; FRR is
the fraction with confidence below the threshold and a known label; both
fractions use the combined known-plus-unknown count as denominator.  On
the synthetic 8-sample set, at threshold `0.5`, FAR is `0.25`, FRR is
`0.125` and DIR is `0.875`. -/
theorem far_frr_entire_set_fractions :
    (∀ (samples : List Sample) (t a : ℚ),
      far samples t = some a →
        a = ((samples.filter (fun s => decide (s.1 ≥ t) && decide (s.2 = -1))).length : ℚ) /
          (samples.length : ℚ)) ∧
    (∀ (samples : List Sample) (t b : ℚ),
      frr samples t = some b →
        b = ((samples.filter (fun s => decide (s.1 < t) && decide (s.2 ≠ -1))).length : ℚ) /
          (samples.length : ℚ)) ∧
    (∀ (samples : List Sample) (t : ℚ), samples ≠ [] →
      (far samples t).isSome ∧ (frr samples t).isSome) ∧
    far exampleSamples (1/2) = some (1/4) ∧
    frr exampleSamples (1/2) = some (1/8) ∧
    dir_rate exampleSamples (1/2) = some (7/8) := by
  refine ⟨?_, ?_, ?_,
    by norm_num [far, npMean, farMask, exampleSamples, List.countP_cons],
    by norm_num [frr, npMean, frrMask, exampleSamples, List.countP_cons],
    by norm_num [dir_rate, frr, npMean, frrMask, exampleSamples, List.countP_cons]⟩
  · intro samples t a h
    rw [(far_some_inv h).2, List.countP_eq_length_filter]
  · intro samples t b h
    rw [(frr_some_inv h).2, List.countP_eq_length_filter]
  · intro samples t h
    rw [far_eq_of_ne_nil samples t h, frr_eq_of_ne_nil samples t h]
    exact ⟨rfl, rfl⟩

theorem far_frr_entire_set_fractions_witness :
    ((1 : ℚ)/4) =
      ((exampleSamples.filter
        (fun s => decide (s.1 ≥ (1 : ℚ)/2) && decide (s.2 = -1))).length : ℚ) /
        (exampleSamples.length : ℚ) :=
  far_frr_entire_set_fractions.1 exampleSamples (1/2) (1/4)
    (by norm_num [far, npMean, farMask, exampleSamples, List.countP_cons])

theorem dir_some_inv {samples : List Sample} {t : ℚ} {d : ℚ}
    (h : dir_rate samples t = some d) :
    ∃ f, frr samples t = some f ∧ d = 1 - f := by
  cases hf : frr samples t with
  | none => rw [dir_rate, hf] at h; exact absurd h (by simp)
  | some f =>
    rw [dir_rate, hf] at h
    exact ⟨f, rfl, by simpa using h.symm⟩

/-- C2 (counterexample): on a completely empty evaluation set, `np.mean`
receives an empty mask and returns NaN (modelled as `none`); the rate is
not defined as `0` and a NaN enters the sweep output. -/
theorem far_empty_eval_set_is_nan :
    far [] (1/2) = none ∧ far [] (1/2) ≠ some 0 := by
  constructor <;> simp [far, npMean, farMask]

/-- C2 (amended): for a nonempty evaluation set the rates are always
defined (no NaN), and a rate whose sample class is empty equals `0`
because the denominator is the entire-set count: with zero unknown
samples FAR is `0`, and with zero known samples FRR is `0`.  Only a
completely empty evaluation set makes `np.mean` return NaN; the code has
no explicit guard for that case. -/
theorem rates_no_nan_and_empty_class_zero :
    ∀ (samples : List Sample) (t : ℚ), samples ≠ [] →
      ((far samples t).isSome ∧ (frr samples t).isSome ∧
        (dir_rate samples t).isSome) ∧
      ((∀ s ∈ samples, s.2 ≠ -1) → far samples t = some 0) ∧
      ((∀ s ∈ samples, s.2 = -1) → frr samples t = some 0) := by
  intro samples t h
  refine ⟨⟨?_, ?_, ?_⟩, ?_, ?_⟩
  · rw [far_eq_of_ne_nil samples t h]; rfl
  · rw [frr_eq_of_ne_nil samples t h]; rfl
  · rw [dir_rate, frr_eq_of_ne_nil samples t h]; rfl
  · intro hk
    rw [far_eq_of_ne_nil samples t h]
    have hz : samples.countP (fun s => decide (s.1 ≥ t) && decide (s.2 = -1)) = 0 := by
      rw [List.countP_eq_zero]
      intro s hs
      simp only [Bool.and_eq_true, decide_eq_true_eq, not_and]
      intro _
      exact hk s hs
    rw [hz]
    norm_num
  · intro hu
    rw [frr_eq_of_ne_nil samples t h]
    have hz : samples.countP (fun s => decide (s.1 < t) && decide (s.2 ≠ -1)) = 0 := by
      rw [List.countP_eq_zero]
      intro s hs
      simp only [Bool.and_eq_true, decide_eq_true_eq, not_and]
      intro _
      exact fun hne => hne (hu s hs)
    rw [hz]
    norm_num

theorem rates_no_nan_and_empty_class_zero_witness :
    far [((1 : ℚ)/2, (0 : ℤ))] (1/2) = some 0 :=
  ((rates_no_nan_and_empty_class_zero [((1 : ℚ)/2, (0 : ℤ))] (1/2)
    (by simp)).2.1) (by simp)

/-- C3: for a fixed sample set, FAR is non-increasing and FRR is
non-decreasing in the threshold, hence DIR is non-increasing: for
thresholds `t1 < t2`, whenever both rates are defined,
`FAR(t1) >= FAR(t2)`, `FRR(t1) <= FRR(t2)` and `DIR(t1) >= DIR(t2)`. -/
theorem far_frr_monotone :
    ∀ (samples : List Sample) (t1 t2 : ℚ), t1 < t2 →
      (∀ a b, far samples t1 = some a → far samples t2 = some b → b ≤ a) ∧
      (∀ a b, frr samples t1 = some a → frr samples t2 = some b → a ≤ b) ∧
      (∀ a b, dir_rate samples t1 = some a → dir_rate samples t2 = some b → b ≤ a) := by
  intro samples t1 t2 ht
  have hfar : ∀ a b, far samples t1 = some a → far samples t2 = some b → b ≤ a := by
    intro a b h1 h2
    obtain ⟨hne, ha⟩ := far_some_inv h1
    obtain ⟨-, hb⟩ := far_some_inv h2
    have hlen : 0 < (samples.length : ℚ) := by
      have := List.length_pos.2 hne
      exact_mod_cast this
    have hcount : samples.countP (fun s => decide (s.1 ≥ t2) && decide (s.2 = -1)) ≤
        samples.countP (fun s => decide (s.1 ≥ t1) && decide (s.2 = -1)) := by
      apply List.countP_mono_left
      intro x _ hx
      simp only [Bool.and_eq_true, decide_eq_true_eq] at hx ⊢
      exact ⟨le_trans ht.le hx.1, hx.2⟩
    rw [ha, hb]
    gcongr
  have hfrr : ∀ a b, frr samples t1 = some a → frr samples t2 = some b → a ≤ b := by
    intro a b h1 h2
    obtain ⟨hne, ha⟩ := frr_some_inv h1
    obtain ⟨-, hb⟩ := frr_some_inv h2
    have hlen : 0 < (samples.length : ℚ) := by
      have := List.length_pos.2 hne
      exact_mod_cast this
    have hcount : samples.countP (fun s => decide (s.1 < t1) && decide (s.2 ≠ -1)) ≤
        samples.countP (fun s => decide (s.1 < t2) && decide (s.2 ≠ -1)) := by
      apply List.countP_mono_left
      intro x _ hx
      simp only [Bool.and_eq_true, decide_eq_true_eq] at hx ⊢
      exact ⟨lt_trans hx.1 ht, hx.2⟩
    rw [ha, hb]
    gcongr
  refine ⟨hfar, hfrr, ?_⟩
  intro a b h1 h2
  obtain ⟨f1, hf1, rfl⟩ := dir_some_inv h1
  obtain ⟨f2, hf2, rfl⟩ := dir_some_inv h2
  have := hfrr f1 f2 hf1 hf2
  linarith

theorem far_frr_monotone_witness :
    far exampleSamples (1/4) = some (3/8) ∧ ((1 : ℚ)/4 ≤ 3/8) := by
  refine ⟨by norm_num [far, npMean, farMask, exampleSamples, List.countP_cons], ?_⟩
  exact (far_frr_monotone exampleSamples (1/4) (1/2) (by norm_num)).1 (3/8) (1/4)
    (by norm_num [far, npMean, farMask, exampleSamples, List.countP_cons])
    (by norm_num [far, npMean, farMask, exampleSamples, List.countP_cons])

/-- C4: at every threshold, whenever the rates are defined,
`DIR(t) + FRR(t) = 1` exactly: the DIR sequence is the pointwise
complement of the FRR sequence. -/
theorem dir_plus_frr_eq_one :
    ∀ (samples : List Sample) (t : ℚ) (d f : ℚ),
      dir_rate samples t = some d → frr samples t = some f → d + f = 1 := by
  intro samples t d f hd hf
  obtain ⟨f', hf', rfl⟩ := dir_some_inv hd
  rw [hf'] at hf
  obtain rfl : f' = f := by simpa using hf
  ring

theorem dir_plus_frr_eq_one_witness : (7 : ℚ)/8 + 1/8 = 1 :=
  dir_plus_frr_eq_one exampleSamples (1/2) (7/8) (1/8)
    (by norm_num [dir_rate, frr, npMean, frrMask, exampleSamples, List.countP_cons])
    (by norm_num [frr, npMean, frrMask, exampleSamples, List.countP_cons])

/-- C5: at the extreme thresholds of the sweep, for a nonempty sample set
whose confidences lie in `[0, 1]`: FRR at `0` is `0` and DIR at `0` is
`1`; and under the precondition that no confidence reaches exactly `1`,
FAR at `1` is `0` and FRR at `1` is the fraction of known-subject samples
over the entire evaluation set. -/
theorem extreme_threshold_rates :
    ∀ (samples : List Sample), samples ≠ [] →
      (∀ s ∈ samples, 0 ≤ s.1 ∧ s.1 ≤ 1) →
      (frr samples 0 = some 0 ∧ dir_rate samples 0 = some 1) ∧
      ((∀ s ∈ samples, s.1 ≠ 1) →
        far samples 1 = some 0 ∧
        frr samples 1 =
          some ((samples.countP (fun s => decide (s.2 ≠ -1)) : ℚ) /
            (samples.length : ℚ))) := by
  intro samples hne hbound
  have hfrr0 : frr samples 0 = some 0 := by
    rw [frr_eq_of_ne_nil samples 0 hne]
    have hz : samples.countP (fun s => decide (s.1 < 0) && decide (s.2 ≠ -1)) = 0 := by
      rw [List.countP_eq_zero]
      intro s hs
      simp only [Bool.and_eq_true, decide_eq_true_eq, not_and]
      intro hlt
      exact absurd hlt (not_lt.2 (hbound s hs).1)
    rw [hz]
    norm_num
  refine ⟨⟨hfrr0, by rw [dir_rate, hfrr0]; norm_num⟩, ?_⟩
  intro hne1
  constructor
  · rw [far_eq_of_ne_nil samples 1 hne]
    have hz : samples.countP (fun s => decide (s.1 ≥ 1) && decide (s.2 = -1)) = 0 := by
      rw [List.countP_eq_zero]
      intro s hs
      simp only [Bool.and_eq_true, decide_eq_true_eq, not_and]
      intro hge
      exact absurd (le_antisymm (hbound s hs).2 hge) (fun h => hne1 s hs h)
    rw [hz]
    norm_num
  · rw [frr_eq_of_ne_nil samples 1 hne]
    have hc : samples.countP (fun s => decide (s.1 < 1) && decide (s.2 ≠ -1)) =
        samples.countP (fun s => decide (s.2 ≠ -1)) := by
      apply List.countP_congr
      intro s hs
      simp only [Bool.and_eq_true, decide_eq_true_eq, and_iff_right_iff_imp]
      intro _
      exact lt_of_le_of_ne (hbound s hs).2 (hne1 s hs)
    rw [hc]

theorem extreme_threshold_rates_witness :
    frr exampleSamples 0 = some 0 ∧ far exampleSamples 1 = some 0 := by
  have hbound : ∀ s ∈ exampleSamples, 0 ≤ s.1 ∧ s.1 ≤ 1 := by
    intro s hs
    fin_cases hs <;> norm_num
  have hne1 : ∀ s ∈ exampleSamples, s.1 ≠ 1 := by
    intro s hs
    fin_cases hs <;> norm_num
  exact ⟨(extreme_threshold_rates exampleSamples (by simp [exampleSamples]) hbound).1.1,
    ((extreme_threshold_rates exampleSamples (by simp [exampleSamples]) hbound).2 hne1).1⟩

/-- C10: whenever FAR, FRR and DIR are all defined at a threshold (which
holds exactly for nonempty sample sets), each lies in `[0, 1]`; moreover
FAR plus FRR is at most `1`, since accepting an unknown and rejecting a
known are disjoint events counted over the shared entire-set denominator,
and consequently FAR is at most DIR. -/
theorem rate_bounds_invariants :
    ∀ (samples : List Sample) (t : ℚ) (a b d : ℚ),
      far samples t = some a → frr samples t = some b →
      dir_rate samples t = some d →
      (0 ≤ a ∧ a ≤ 1) ∧ (0 ≤ b ∧ b ≤ 1) ∧ (0 ≤ d ∧ d ≤ 1) ∧
      a + b ≤ 1 ∧ a ≤ d := by
  intro samples t a b d ha hb hd
  obtain ⟨hne, rfl⟩ := far_some_inv ha
  obtain ⟨-, rfl⟩ := frr_some_inv hb
  obtain ⟨f, hf, rfl⟩ := dir_some_inv hd
  obtain rfl : f = (samples.countP (fun s => decide (s.1 < t) && decide (s.2 ≠ -1)) : ℚ) /
      (samples.length : ℚ) := by
    rw [hb] at hf
    simpa using hf.symm
  have hn : 0 < (samples.length : ℚ) := by
    exact_mod_cast List.length_pos.2 hne
  have hsum : samples.countP (fun s => decide (s.1 ≥ t) && decide (s.2 = -1)) +
      samples.countP (fun s => decide (s.1 < t) && decide (s.2 ≠ -1)) ≤
      samples.length := by
    have h1 : samples.countP (fun s => decide (s.1 ≥ t) && decide (s.2 = -1)) ≤
        samples.countP (fun s : Sample => decide (s.2 = -1)) := by
      apply List.countP_mono_left
      intro x _ hx
      simp only [Bool.and_eq_true, decide_eq_true_eq] at hx ⊢
      exact hx.2
    have h2 : samples.countP (fun s => decide (s.1 < t) && decide (s.2 ≠ -1)) ≤
        samples.countP (fun s : Sample => decide ¬(decide (s.2 = -1) = true)) := by
      apply List.countP_mono_left
      intro x _ hx
      simp only [Bool.and_eq_true, decide_eq_true_eq] at hx ⊢
      exact hx.2
    have hsplit := List.length_eq_countP_add_countP
      (fun s : Sample => decide (s.2 = -1)) samples
    omega
  have hfarle : (samples.countP (fun s => decide (s.1 ≥ t) && decide (s.2 = -1)) : ℚ) /
      (samples.length : ℚ) +
      (samples.countP (fun s => decide (s.1 < t) && decide (s.2 ≠ -1)) : ℚ) /
      (samples.length : ℚ) ≤ 1 := by
    rw [div_add_div_same]
    rw [div_le_one hn]
    exact_mod_cast hsum
  have hb01 : 0 ≤ (samples.countP (fun s => decide (s.1 < t) && decide (s.2 ≠ -1)) : ℚ) /
      (samples.length : ℚ) ∧
      (samples.countP (fun s => decide (s.1 < t) && decide (s.2 ≠ -1)) : ℚ) /
      (samples.length : ℚ) ≤ 1 := by
    constructor
    · exact div_nonneg (by positivity) hn.le
    · rw [div_le_one hn]
      exact_mod_cast List.countP_le_length _
  have ha01 : 0 ≤ (samples.countP (fun s => decide (s.1 ≥ t) && decide (s.2 = -1)) : ℚ) /
      (samples.length : ℚ) ∧
      (samples.countP (fun s => decide (s.1 ≥ t) && decide (s.2 = -1)) : ℚ) /
      (samples.length : ℚ) ≤ 1 := by
    constructor
    · exact div_nonneg (by positivity) hn.le
    · rw [div_le_one hn]
      exact_mod_cast List.countP_le_length _
  refine ⟨ha01, hb01, ⟨by linarith [hb01.2], by linarith [hb01.1]⟩, hfarle, ?_⟩
  linarith [hfarle]

theorem rate_bounds_invariants_witness :
    (0 ≤ (1 : ℚ)/4 ∧ (1 : ℚ)/4 ≤ 1) ∧ (0 ≤ (1 : ℚ)/8 ∧ (1 : ℚ)/8 ≤ 1) ∧
    (0 ≤ (7 : ℚ)/8 ∧ (7 : ℚ)/8 ≤ 1) ∧
    (1 : ℚ)/4 + 1/8 ≤ 1 ∧ (1 : ℚ)/4 ≤ 7/8 :=
  rate_bounds_invariants exampleSamples (1/2) (1/4) (1/8) (7/8)
    (by norm_num [far, npMean, farMask, exampleSamples, List.countP_cons])
    (by norm_num [frr, npMean, frrMask, exampleSamples, List.countP_cons])
    (by norm_num [dir_rate, frr, npMean, frrMask, exampleSamples, List.countP_cons])

/-- C7: the sweep grid is exactly `linspace(0, 1, 1000)`: 1000 points,
first element `0`, last element `1`, strictly ascending; and the FAR, FRR
and DIR output sequences each have the same length as the grid and are
index-aligned with it. -/
theorem sweep_grid_and_alignment :
    thresholds.length = 1000 ∧
    thresholds[0]? = some 0 ∧
    thresholds[999]? = some 1 ∧
    thresholds.Pairwise (· < ·) ∧
    ∀ (samples : List Sample),
      (far_list samples).length = thresholds.length ∧
      (frr_list samples).length = thresholds.length ∧
      (dir_list samples).length = thresholds.length ∧
      ∀ i : ℕ,
        (far_list samples)[i]? = (thresholds[i]?).map (far samples) ∧
        (frr_list samples)[i]? = (thresholds[i]?).map (frr samples) ∧
        (dir_list samples)[i]? = (thresholds[i]?).map (dir_rate samples) := by
  refine ⟨by rw [thresholds, List.length_map, List.length_range], ?_, ?_, ?_, ?_⟩
  · rw [thresholds, List.getElem?_map,
      List.getElem?_range (show 0 < 1000 by norm_num)]
    norm_num
  · rw [thresholds, List.getElem?_map,
      List.getElem?_range (show 999 < 1000 by norm_num)]
    norm_num
  · exact List.Pairwise.map _
      (fun a b hab => (div_lt_div_iff_of_pos_right (by norm_num)).2 (by exact_mod_cast hab))
      (List.pairwise_lt_range 1000)
  · intro samples
    refine ⟨by simp [far_list], by simp [frr_list], by simp [dir_list], ?_⟩
    intro i
    exact ⟨by rw [far_list, List.getElem?_map],
      by rw [frr_list, List.getElem?_map],
      by rw [dir_list, List.getElem?_map]⟩

theorem argminAbsAux_spec (target : ℚ) (xs : List ℚ) :
    xs ≠ [] →
      ∃ j v, argminAbsAux target xs = some (j, v) ∧ j < xs.length ∧
        v = |xs.getD j 0 - target| ∧
        ∀ i, i < xs.length → v ≤ |xs.getD i 0 - target| := by
  induction xs with
  | nil => intro h; exact absurd rfl h
  | cons x xs ih =>
    intro hcons
    by_cases hxs : xs = []
    · subst hxs
      refine ⟨0, |x - target|, by simp [argminAbsAux], by simp, by simp, ?_⟩
      intro i hi
      simp only [List.length_cons, List.length_nil] at hi
      obtain rfl : i = 0 := by omega
      simp
    · obtain ⟨j, v, haux, hj, hv, hmin⟩ := ih hxs
      by_cases hle : |x - target| ≤ v
      · refine ⟨0, |x - target|, ?_, by simp, by simp, ?_⟩
        · simp only [argminAbsAux, haux]
          rw [if_pos hle]
        · intro i hi
          cases i with
          | zero => simp
          | succ i' =>
            rw [List.getD_cons_succ]
            refine le_trans hle (hmin i' ?_)
            simp only [List.length_cons] at hi
            omega
      · refine ⟨j + 1, v, ?_, ?_, ?_, ?_⟩
        · simp only [argminAbsAux, haux]
          rw [if_neg hle]
        · simp only [List.length_cons]
          omega
        · rw [List.getD_cons_succ]
          exact hv
        · intro i hi
          cases i with
          | zero =>
            rw [List.getD_cons_zero]
            exact (not_le.1 hle).le
          | succ i' =>
            rw [List.getD_cons_succ]
            refine hmin i' ?_
            simp only [List.length_cons] at hi
            omega

theorem argminAbs_spec (xs : List ℚ) (target : ℚ) (hne : xs ≠ []) :
    argminAbs xs target < xs.length ∧
      ∀ i, i < xs.length →
        |xs.getD (argminAbs xs target) 0 - target| ≤ |xs.getD i 0 - target| := by
  obtain ⟨j, v, haux, hj, hv, hmin⟩ := argminAbsAux_spec target xs hne
  have hval : argminAbs xs target = j := by
    rw [argminAbs, haux, Option.map_some', Option.getD_some]
  rw [hval]
  exact ⟨hj, fun i hi => hv ▸ hmin i hi⟩

theorem thresholds_length : thresholds.length = 1000 := by
  rw [thresholds, List.length_map, List.length_range]

theorem thresholds_ne_nil : thresholds ≠ [] := by
  intro h
  have := thresholds_length
  rw [h] at this
  simp at this

/-- C6: for the 1000-point sweep grid, the CSV export writes exactly 11
lines, one header plus 10 data rows, one per decade target `0.1`..`1.0`
in ascending order; each data row is taken at the first grid index
minimizing the absolute difference to its decade target, so the written
threshold is the actual nearest grid value, not the nominal target. -/
theorem csv_export_eleven_lines_nearest_grid :
    ∀ (far_l frr_l dir_l : List ℚ),
      csvLineCount thresholds far_l frr_l dir_l = 11 ∧
      (save_threshold_metrics thresholds far_l frr_l dir_l).length = 10 ∧
      selected_thresholds.Pairwise (· < ·) ∧
      ∀ k, k < 10 →
        argminAbs thresholds (selected_thresholds.getD k 0) < 1000 ∧
        (save_threshold_metrics thresholds far_l frr_l dir_l)[k]? =
          some
            (thresholds.getD (argminAbs thresholds (selected_thresholds.getD k 0)) 0,
              far_l.getD (argminAbs thresholds (selected_thresholds.getD k 0)) 0,
              frr_l.getD (argminAbs thresholds (selected_thresholds.getD k 0)) 0,
              dir_l.getD (argminAbs thresholds (selected_thresholds.getD k 0)) 0) ∧
        ∀ j, j < 1000 →
          |thresholds.getD (argminAbs thresholds (selected_thresholds.getD k 0)) 0 -
              selected_thresholds.getD k 0| ≤
            |thresholds.getD j 0 - selected_thresholds.getD k 0| := by
  intro far_l frr_l dir_l
  have hsellen : selected_thresholds.length = 10 := by
    rw [selected_thresholds, List.length_map, List.length_range]
  have hrows : (save_threshold_metrics thresholds far_l frr_l dir_l).length = 10 := by
    rw [save_threshold_metrics, List.length_map, hsellen]
  refine ⟨by rw [csvLineCount, hrows], hrows, ?_, ?_⟩
  · exact List.Pairwise.map _
      (fun a b hab => by
        have : (a : ℚ) + 1 < (b : ℚ) + 1 := by
          have : (a : ℚ) < b := by exact_mod_cast hab
          linarith
        exact (div_lt_div_iff_of_pos_right (by norm_num)).2 this)
      (List.pairwise_lt_range 10)
  · intro k hk
    have hsel : selected_thresholds[k]? = some (selected_thresholds.getD k 0) := by
      rw [List.getD_eq_getElem?_getD, List.getElem?_eq_getElem (by omega),
        Option.getD_some]
    obtain ⟨hlt, hmin⟩ := argminAbs_spec thresholds
      (selected_thresholds.getD k 0) thresholds_ne_nil
    rw [thresholds_length] at hlt hmin
    refine ⟨hlt, ?_, hmin⟩
    rw [save_threshold_metrics, List.getElem?_map, hsel, Option.map_some']

theorem csv_export_eleven_lines_nearest_grid_witness :
    csvLineCount thresholds [] [] [] = 11 ∧
    argminAbs thresholds (selected_thresholds.getD 0 0) < 1000 ∧
    |thresholds.getD (argminAbs thresholds (selected_thresholds.getD 0 0)) 0 -
        selected_thresholds.getD 0 0| ≤
      |thresholds.getD 42 0 - selected_thresholds.getD 0 0| :=
  ⟨(csv_export_eleven_lines_nearest_grid [] [] []).1,
    ((csv_export_eleven_lines_nearest_grid [] [] []).2.2.2 0 (by norm_num)).1,
    ((csv_export_eleven_lines_nearest_grid [] [] []).2.2.2 0 (by norm_num)).2.2
      42 (by norm_num)⟩

/-- C8: for any sweep length of at least 20, the watchlist-ROC scatter
subsample selects exactly 20 integer indices, evenly spaced as the
truncations of `i * (N - 1) / 19`, strictly increasing, starting at `0`,
ending at `N - 1`, and all within `[0, N - 1]`. -/
theorem scatter_subsample_twenty_even_indices :
    ∀ n : ℕ, 20 ≤ n →
      (subset_indices n).length = 20 ∧
      (subset_indices n)[0]? = some 0 ∧
      (subset_indices n)[19]? = some (n - 1) ∧
      (subset_indices n).Pairwise (· < ·) ∧
      (∀ i, i < 20 → (subset_indices n)[i]? = some (i * (n - 1) / 19)) ∧
      ∀ x ∈ subset_indices n, x ≤ n - 1 := by
  intro n hn
  have hidx : ∀ i, i < 20 → (subset_indices n)[i]? = some (i * (n - 1) / 19) := by
    intro i hi
    rw [subset_indices, List.getElem?_map, List.getElem?_range hi, Option.map_some']
  have hcancel : 19 * (n - 1) / 19 = n - 1 :=
    Nat.mul_div_cancel_left (n - 1) (by norm_num)
  refine ⟨by rw [subset_indices, List.length_map, List.length_range], ?_, ?_, ?_, hidx, ?_⟩
  · rw [hidx 0 (by norm_num)]
    norm_num
  · rw [hidx 19 (by norm_num), hcancel]
  · refine List.Pairwise.map _ (fun a b hab => ?_) (List.pairwise_lt_range 20)
    have h19 : 19 ≤ n - 1 := by omega
    have hstep : a * (n - 1) + 19 ≤ b * (n - 1) := by
      have h1 : a * (n - 1) + (n - 1) = (a + 1) * (n - 1) := by ring
      have h2 : (a + 1) * (n - 1) ≤ b * (n - 1) := Nat.mul_le_mul_right _ hab
      omega
    calc a * (n - 1) / 19 < a * (n - 1) / 19 + 1 := Nat.lt_succ_self _
      _ = (a * (n - 1) + 19) / 19 := (Nat.add_div_right _ (by norm_num)).symm
      _ ≤ b * (n - 1) / 19 := Nat.div_le_div_right hstep
  · intro x hx
    rw [subset_indices, List.mem_map] at hx
    obtain ⟨i, hi, rfl⟩ := hx
    have hi19 : i ≤ 19 := by
      have := List.mem_range.1 hi
      omega
    calc i * (n - 1) / 19 ≤ 19 * (n - 1) / 19 :=
        Nat.div_le_div_right (Nat.mul_le_mul_right _ hi19)
      _ = n - 1 := hcancel

theorem scatter_subsample_twenty_even_indices_witness :
    (subset_indices 1000).length = 20 ∧
    (subset_indices 1000)[0]? = some 0 ∧
    (subset_indices 1000)[19]? = some (1000 - 1) ∧
    (subset_indices 1000)[5]? = some (5 * (1000 - 1) / 19) := by
  obtain ⟨h1, h2, h3, -, h5, -⟩ :=
    scatter_subsample_twenty_even_indices 1000 (by norm_num)
  exact ⟨h1, h2, h3, h5 5 (by norm_num)⟩

/-- C9: when the checkpoint weights file is absent, `test` fails with a
checkpoint-not-found error before any scoring occurs, and no partial
results exist: no batch is scored, and neither the CSV export nor either
plot write happens, whatever the batch count. -/
theorem missing_checkpoint_aborts_before_scoring :
    ∀ numBatches : ℕ,
      test false numBatches = ([], Except.error EvalError.checkpointNotFound) ∧
      Event.scoreBatch ∉ (test false numBatches).1 ∧
      Event.writeFarFrrPlot ∉ (test false numBatches).1 ∧
      Event.writeThresholdCsv ∉ (test false numBatches).1 ∧
      Event.writeRocPlot ∉ (test false numBatches).1 := by
  intro n
  refine ⟨rfl, ?_, ?_, ?_, ?_⟩ <;> simp [test]

end VeinVision
